import Mathlib

/-!
Verification of the prompt-registry engine
(`mcp-server/src/prompt-registry-mcp.ts`).

Strings are modelled as Lean `String` (a wrapper around `List Char`);
the JavaScript string primitives used by the source (`toLowerCase`,
`trim`, non-global `String.replace` with the handful of concrete
regexes appearing in the source, `includes`, `split`, `slice`) are
embedded as executable functions on `List Char`.  Numbers are modelled
as `ℚ` (the source only performs exact additions, subtractions,
divisions and comparisons on small values, where IEEE doubles and
rationals agree).  The in-memory catalog (a `Map` iterated in insertion
order) is a `List` of packages, and the analytics `Map` is a function
`String → Option PromptAnalytics`.
-/

/-- Whitespace class used by the JavaScript `\s` and `trim` (ASCII part). -/
def jsWS (c : Char) : Bool :=
  c = ' ' || c = '\t' || c = '\n' || c = '\r' || c.toNat = 11 || c.toNat = 12

/-- Lowercasing of a character list, embedding `String.prototype.toLowerCase`. -/
def lowerL (l : List Char) : List Char := l.map Char.toLower

/-- Trim from the front. -/
def trimFront (l : List Char) : List Char := l.dropWhile jsWS

/-- Trim from the back. -/
def trimBack (l : List Char) : List Char := (l.reverse.dropWhile jsWS).reverse

/-- Embedding of `String.prototype.trim`. -/
def jsTrimL (l : List Char) : List Char := trimBack (trimFront l)

/-- Splits `l` at the first occurrence of the literal `lit`:
`splitFirst lit l = some (pre, suf)` means `l = pre ++ lit ++ suf` and no
occurrence of `lit` starts inside `pre`. -/
def splitFirst (lit : List Char) : List Char → Option (List Char × List Char)
  | [] => if lit.isPrefixOf ([] : List Char) then some ([], []) else none
  | c :: t =>
    if lit.isPrefixOf (c :: t) then some ([], (c :: t).drop lit.length)
    else
      match splitFirst lit t with
      | some (pre, suf) => some (c :: pre, suf)
      | none => none

/-- Splits `l` at the last occurrence of the literal `lit`. -/
def splitLast (lit : List Char) : List Char → Option (List Char × List Char)
  | [] => if lit.isPrefixOf ([] : List Char) then some ([], []) else none
  | c :: t =>
    match splitLast lit t with
    | some (pre, suf) => some (c :: pre, suf)
    | none =>
      if lit.isPrefixOf (c :: t) then some ([], (c :: t).drop lit.length)
      else none

/-- Substring test, embedding `String.prototype.includes`. -/
def occursL (lit l : List Char) : Bool := (splitFirst lit l).isSome

/-- Embedding of the non-global `s.replace(/lit (.*)/, "$1")` rewrites of
`normalizeIntent`: because `(.*)` always matches (possibly empty, up to the
end of the line) and the replacement re-inserts the capture in place, the
net effect is deletion of the first occurrence of the literal. -/
def deleteFirstL (lit l : List Char) : List Char :=
  match splitFirst lit l with
  | some (pre, suf) => pre ++ suf
  | none => l

/-- Embedding of `s.replace(/lit (.*)/, "rep $1")`: the first occurrence of
the literal is replaced by `rep`, everything else kept in place. -/
def replaceFirstL (lit rep l : List Char) : List Char :=
  match splitFirst lit l with
  | some (pre, suf) => pre ++ rep ++ suf
  | none => l

/-- Consume one greeting alternative plus the trailing `\s*,?\s*` of the
greeting regex `/^(hi|hello|hey)\s*,?\s*/i`. -/
def greetConsume (g l : List Char) : List Char :=
  match (l.drop g.length).dropWhile jsWS with
  | ',' :: t => t.dropWhile jsWS
  | r => r

/-- Embedding of `normalized.replace(/^(hi|hello|hey)\s*,?\s*/i, "")`
(the text is already lowercase when this runs; the three alternatives are
mutually exclusive as prefixes, so ordered alternation reduces to cases). -/
def stripGreetingL (l : List Char) : List Char :=
  if ("hi".data).isPrefixOf l then greetConsume "hi".data l
  else if ("hello".data).isPrefixOf l then greetConsume "hello".data l
  else if ("hey".data).isPrefixOf l then greetConsume "hey".data l
  else l

/-- Matcher for `/how does (.*) work/i` at the current position: requires the
literal `how does `, then a greedy same-line capture terminated by the last
occurrence of ` work` on that line. Returns the capture and the suffix after
the match. -/
def hdwRest (l : List Char) : List Char := l.drop ("how does ".data).length

/-- Same-line greedy capture region of `/how does (.*) work/`: the rest of
the text after the literal, up to the first newline. -/
def hdwLine (l : List Char) : List Char := (hdwRest l).takeWhile (fun c => c ≠ '\n')

/-- Text from the first newline after the literal onwards. -/
def hdwAfter (l : List Char) : List Char := (hdwRest l).drop (hdwLine l).length

def hdwAt (l : List Char) : Option (List Char × List Char) :=
  if ("how does ".data).isPrefixOf l then
    match splitLast " work".data (hdwLine l) with
    | some (cap, sufLine) => some (cap, sufLine ++ hdwAfter l)
    | none => none
  else none

/-- Leftmost-match search for `/how does (.*) work/i`, returning the prefix
before the match, the capture, and the suffix after the match. -/
def hdwSearch : List Char → Option (List Char × List Char × List Char)
  | [] =>
    match hdwAt ([] : List Char) with
    | some (cap, suf) => some ([], cap, suf)
    | none => none
  | c :: t =>
    match hdwAt (c :: t) with
    | some (cap, suf) => some ([], cap, suf)
    | none =>
      match hdwSearch t with
      | some (pre, cap, suf) => some (c :: pre, cap, suf)
      | none => none

/-- Embedding of `normalized.replace(/how does (.*) work/i, "explain $1")`. -/
def rewriteHowDoesWorkL (l : List Char) : List Char :=
  match hdwSearch l with
  | some (pre, cap, suf) => pre ++ "explain ".data ++ cap ++ suf
  | none => l

/-- Embedding of `normalizeIntent` from the source: lowercase and trim,
strip a leading greeting, then the seven `replace` statements in source
order, each applied to the result of the previous one, and a final trim. -/
def normalizeIntent (text : String) : String :=
  let n0 := jsTrimL (lowerL text.data)
  let n1 := stripGreetingL n0
  let n2 := deleteFirstL "can you ".data n1
  let n3 := deleteFirstL "could you ".data n2
  let n4 := deleteFirstL "would you ".data n3
  let n5 := deleteFirstL "please ".data n4
  let n6 := replaceFirstL "tell me ".data "explain ".data n5
  let n7 := rewriteHowDoesWorkL n6
  let n8 := replaceFirstL "what is ".data "define ".data n7
  ⟨jsTrimL n8⟩

example : normalizeIntent "Can you explain recursion" = "explain recursion" := by decide

example : normalizeIntent "can you tell me about recursion" = "explain about recursion" := by
  decide

example : normalizeIntent "Hi, how does git work" = "explain git" := by decide

/-- Word characters of the JavaScript `\w` class / `\b` boundary. -/
def isWordChar (c : Char) : Bool := c.isAlphanum || c = '_'

/-- Tries the ordered alternatives of a `\b(a1|a2|…)\b` group at the current
position (case-insensitively); on success returns the length of the match.
The leading `\b` is checked by the caller, the trailing `\b` here (every
alternative starts and ends with a word character). -/
def wordAlt : List (List Char) → List Char → Option Nat
  | [], _ => none
  | a :: rest, l =>
    match a with
    | [] => wordAlt rest l
    | _ :: _ =>
      if (l.take a.length).map Char.toLower = a then
        match l.drop a.length with
        | [] => some a.length
        | d :: _ => if isWordChar d then wordAlt rest l else some a.length
      else wordAlt rest l

/-- Global scan for `s.replace(/\b(a1|a2|…)\b/gi, "")`: the first argument
counts characters of a found match still to be skipped, the `Bool` records
whether the character before the current position is a word character (the
state of the leading `\b`); after a removal scanning resumes right after the
matched text. -/
def removeWordsAux (alts : List (List Char)) : Nat → Bool → List Char → List Char
  | _, _, [] => []
  | Nat.succ m, _, _ :: t => removeWordsAux alts m true t
  | 0, prevWord, c :: t =>
    if prevWord then c :: removeWordsAux alts 0 (isWordChar c) t
    else
      match wordAlt alts (c :: t) with
      | some n => removeWordsAux alts (n - 1) true t
      | none => c :: removeWordsAux alts 0 (isWordChar c) t

/-- Global collapse of runs of two or more copies of `ch` to a single copy,
embedding `s.replace(/[!]{2,}/g, "!")` and its `?` / `.` analogues (the first
character of a run is kept, the rest of the run is dropped; runs of length
one are thereby emitted unchanged, as the regex leaves them alone). -/
def collapseRuns (ch : Char) : Bool → List Char → List Char
  | _, [] => []
  | prevIsCh, c :: t =>
    if c = ch then
      if prevIsCh then collapseRuns ch true t else c :: collapseRuns ch true t
    else c :: collapseRuns ch false t

/-- Alternatives of the first noise pattern. -/
def noiseAlts1 : List (List Char) :=
  ["um".data, "uh".data, "like".data, "you know".data, "basically".data, "literally".data]

/-- Alternatives of the second noise pattern. -/
def noiseAlts2 : List (List Char) := ["please".data, "thanks".data, "thank you".data]

/-- Alternatives of the third noise pattern. -/
def noiseAlts3 : List (List Char) := ["can you".data, "could you".data, "would you".data]

/-- Embedding of `removeNoise`: the three global word-boundary removals in
source order, then the three punctuation-run collapses, then a trim. -/
def removeNoise (text : String) : String :=
  let l1 := removeWordsAux noiseAlts1 0 false text.data
  let l2 := removeWordsAux noiseAlts2 0 false l1
  let l3 := removeWordsAux noiseAlts3 0 false l2
  let l4 := collapseRuns '!' false l3
  let l5 := collapseRuns '?' false l4
  let l6 := collapseRuns '.' false l5
  ⟨jsTrimL l6⟩

/-- Collapse every whitespace run to a single space, embedding
`text.replace(/\s+/g, " ")` (the `Bool` records whether the previous
character was whitespace). -/
def collapseWSRuns : Bool → List Char → List Char
  | _, [] => []
  | prevWS, c :: t =>
    if jsWS c then
      if prevWS then collapseWSRuns true t else ' ' :: collapseWSRuns true t
    else c :: collapseWSRuns false t

/-- Punctuation class `[,.!?]` of `standardizeFormat`. -/
def isPunctCh (c : Char) : Bool := c = ',' || c = '.' || c = '!' || c = '?'

/-- ASCII letter class `[A-Za-z]`. -/
def isAsciiLetter (c : Char) : Bool := ('A' ≤ c && c ≤ 'Z') || ('a' ≤ c && c ≤ 'z')

/-- Scanner for `formatted.replace(/\s+([,.!?])/g, "$1")`: `pending` holds
the whitespace run read so far (reversed). A run directly followed by a
punctuation character is deleted (keeping the punctuation); a run followed
by anything else is emitted unchanged. -/
def dropWSBeforePunctAux : List Char → List Char → List Char
  | pending, [] => pending.reverse
  | pending, c :: t =>
    if jsWS c then dropWSBeforePunctAux (c :: pending) t
    else if isPunctCh c && !pending.isEmpty then c :: dropWSBeforePunctAux [] t
    else pending.reverse ++ c :: dropWSBeforePunctAux [] t

/-- Embedding of `formatted.replace(/\s+([,.!?])/g, "$1")`. -/
def dropWSBeforePunct (l : List Char) : List Char := dropWSBeforePunctAux [] l

/-- Embedding of `formatted.replace(/([,.!?])([A-Za-z])/g, "$1 $2")`:
scanning resumes after each two-character match. -/
def spacePunct : List Char → List Char
  | [] => []
  | [c] => [c]
  | c1 :: c2 :: t =>
    if isPunctCh c1 && isAsciiLetter c2 then c1 :: ' ' :: c2 :: spacePunct t
    else c1 :: spacePunct (c2 :: t)

/-- Embedding of `standardizeFormat`. -/
def standardizeFormat (text : String) : String :=
  let l1 := jsTrimL (collapseWSRuns false text.data)
  let l2 := dropWSBeforePunct l1
  let l3 := spacePunct l2
  let l4 :=
    match l3 with
    | [] => ([] : List Char)
    | c :: t => if c.toLower = c then c.toUpper :: t else c :: t
  ⟨l4⟩

/-- Lowercased character set of a string, as built by
`new Set(original.toLowerCase())`. -/
def charSet (s : String) : Finset Char := (s.data.map Char.toLower).toFinset

/-- Embedding of `calculateConfidence`: exactly `1.0` on identical strings,
otherwise a bucketed Jaccard similarity of the lowercase character sets. -/
def calculateConfidence (original processed : String) : ℚ :=
  if original = processed then 1
  else
    let originalChars := charSet original
    let processedChars := charSet processed
    let inter := originalChars ∩ processedChars
    let union := originalChars ∪ processedChars
    let similarity : ℚ := (inter.card : ℚ) / (union.card : ℚ)
    if 0.8 < similarity then 0.9
    else if 0.6 < similarity then 0.7
    else if 0.4 < similarity then 0.5
    else 0.3

/-- Result record of `preprocessInput`. -/
structure ProcessedInput where
  original_input : String
  processed_input : String
  transformations_applied : List String
  confidence : ℚ
  deriving DecidableEq, Repr

/-- Embedding of `preprocessInput`: `transformations || default` substitutes
the default pipeline only when the argument is absent (an explicit empty
array is truthy in JavaScript), then the recognized transforms are applied
in the requested order. -/
def preprocessInput (input_text : String) (transformations : Option (List String)) :
    ProcessedInput :=
  let defaultTransformations := ["intent_normalization", "noise_removal"]
  let transformsToApply :=
    match transformations with
    | none => defaultTransformations
    | some ts => ts
  let step := fun (acc : String × List String) (transform : String) =>
    if transform = "intent_normalization" then
      (normalizeIntent acc.1, acc.2 ++ ["intent_normalization"])
    else if transform = "noise_removal" then
      (removeNoise acc.1, acc.2 ++ ["noise_removal"])
    else if transform = "format_standardization" then
      (standardizeFormat acc.1, acc.2 ++ ["format_standardization"])
    else acc
  let out := transformsToApply.foldl step (input_text, [])
  { original_input := input_text
    processed_input := out.1
    transformations_applied := out.2
    confidence := calculateConfidence input_text out.1 }

example :
    (preprocessInput "Hi, can you tell me about recursion?" none).processed_input =
      "explain about recursion?" := by decide

/-- Prompt record of the catalog (usage counter as `ℕ`, optional fields as
`Option`). -/
structure Prompt where
  id : String
  name : String
  content : String
  version : String
  description : Option String
  tags : List String
  author : Option String
  usage_count : Nat
  success_rate : Option ℚ
  deriving DecidableEq, Repr

/-- Package record: a named, ordered collection of prompts. -/
structure PromptPackage where
  name : String
  version : String
  description : Option String
  author : Option String
  prompts : List Prompt
  deriving DecidableEq, Repr

/-- All prompts of the catalog, packages in insertion order and prompts in
in-package order. -/
def allPrompts (catalog : List PromptPackage) : List Prompt :=
  catalog.flatMap (fun pkg => pkg.prompts)

/-- Lowercasing on `String`. -/
def toLowerStr (s : String) : String := ⟨lowerL s.data⟩

/-- Case-insensitive `includes` of `searchPrompts`: both sides lowercased. -/
def containsCI (haystack needle : String) : Bool :=
  occursL (lowerL needle.data) (lowerL haystack.data)

/-- Query predicate of `searchPrompts` on one prompt: case-insensitive
substring of the name, the content, or the description; a prompt without a
description never matches on that field. -/
def matchesQuery (query : String) (p : Prompt) : Bool :=
  containsCI p.name query || containsCI p.content query ||
    (match p.description with
     | some d => containsCI d query
     | none => false)

/-- Tag predicate of `searchPrompts`: vacuously true when no tag list is
supplied, otherwise at least one requested tag must be present verbatim
(case-sensitively) in the prompt's tag list. -/
def matchesTags (tags : Option (List String)) (p : Prompt) : Bool :=
  match tags with
  | none => true
  | some ts => ts.any (fun tag => p.tags.contains tag)

/-- Ranking score of `searchPrompts`:
`(usage_count || 0) + (success_rate || 0) * 100`. -/
def promptScore (p : Prompt) : ℚ :=
  (p.usage_count : ℚ) +
    (match p.success_rate with
     | some r => r
     | none => 0) * 100

/-- Comparator relation of the search sort: descending score. The source
sorts with `(a, b) => bScore - aScore` using the (ES2019, stable)
`Array.prototype.sort`; any stable sort by this comparator computes the
same list, so the embedding uses stable insertion sort. -/
def searchGE (a b : Prompt) : Prop := promptScore b ≤ promptScore a

instance : DecidableRel searchGE := fun a b =>
  inferInstanceAs (Decidable (promptScore b ≤ promptScore a))

instance : IsTotal Prompt searchGE :=
  ⟨fun a b => le_total (promptScore b) (promptScore a)⟩

instance : IsTrans Prompt searchGE :=
  ⟨fun _ _ _ hab hbc => le_trans hbc hab⟩

/-- Matching prompts of a search, in catalog encounter order. -/
def searchMatches (catalog : List PromptPackage) (query : String)
    (tags : Option (List String)) : List Prompt :=
  (allPrompts catalog).filter (fun p => matchesQuery query p && matchesTags tags p)

/-- Matching prompts after the ranking sort. -/
def searchSorted (catalog : List PromptPackage) (query : String)
    (tags : Option (List String)) : List Prompt :=
  List.insertionSort searchGE (searchMatches catalog query tags)

/-- Result payload of `searchPrompts`. -/
structure SearchOutput where
  results : List Prompt
  total : Nat
  returned : Nat
  deriving DecidableEq, Repr

/-- Embedding of `searchPrompts`: filter, rank, truncate to `limit`,
report pre-truncation total. -/
def searchPrompts (catalog : List PromptPackage) (query : String)
    (tags : Option (List String)) (limit : Nat) : SearchOutput :=
  let sorted := searchSorted catalog query tags
  let limitedResults := sorted.take limit
  { results := limitedResults
    total := sorted.length
    returned := limitedResults.length }

/-- Tag-rule test of `getBestPrompt` on one prompt: the `if / else if`
chain over the lowercased input and the lowercased prompt tags. -/
def tagRuleMatches (inputLower : String) (p : Prompt) : Bool :=
  let promptTags := p.tags.map toLowerStr
  (occursL "code".data inputLower.data && promptTags.contains "code") ||
    (occursL "customer".data inputLower.data && promptTags.contains "customer") ||
    (occursL "explain".data inputLower.data && promptTags.contains "educational")

/-- Scan of `getBestPrompt` over packages and prompts with early exit:
the first prompt (in catalog order) satisfying a tag rule. -/
def findTagMatch (catalog : List PromptPackage) (inputLower : String) : Option Prompt :=
  match catalog with
  | [] => none
  | pkg :: rest =>
    match pkg.prompts.find? (fun p => tagRuleMatches inputLower p) with
    | some p => some p
    | none => findTagMatch rest inputLower

/-- Single step of the usage-count fallback scan of `getBestPrompt`:
strictly larger usage count replaces the current best. -/
def mostUsedStep (acc : Option Prompt × Nat) (p : Prompt) : Option Prompt × Nat :=
  if acc.2 < p.usage_count then (some p, p.usage_count) else acc

/-- Fallback of `getBestPrompt`: scan of all prompts starting from
`mostUsed = undefined, maxUsage = 0`. -/
def mostUsed (ps : List Prompt) : Option Prompt :=
  (ps.foldl mostUsedStep (none, 0)).1

/-- Embedding of `getBestPrompt`: tag-rule scan, usage-count fallback,
error when both come up empty, and preprocessing of the input with the
default pipeline on success. -/
def getBestPrompt (catalog : List PromptPackage) (user_input : String) :
    Except String (Prompt × ProcessedInput) :=
  match
    (match findTagMatch catalog (toLowerStr user_input) with
     | some p => some p
     | none => mostUsed (allPrompts catalog)) with
  | none => Except.error "No prompts available"
  | some p => Except.ok (p, preprocessInput user_input none)

/-- In-package part of `trackPromptUsage`: increment the usage counter of
the first prompt with the given id, leave everything else unchanged. -/
def incFirst (pid : String) : List Prompt → List Prompt
  | [] => []
  | p :: t =>
    if p.id = pid then { p with usage_count := p.usage_count + 1 } :: t
    else p :: incFirst pid t

/-- Catalog part of `trackPromptUsage`: packages are scanned in order; in
the first package containing the id the first matching prompt is updated
and the scan stops (`break`). -/
def trackCatalog (pid : String) : List PromptPackage → List PromptPackage
  | [] => []
  | pkg :: rest =>
    if pkg.prompts.any (fun p => p.id = pid) then
      { pkg with prompts := incFirst pid pkg.prompts } :: rest
    else pkg :: trackCatalog pid rest

/-- Embedding of `trackPromptUsage`: the updated catalog together with the
response message, which is the same success confirmation whether or not the
id was found. -/
def trackPromptUsage (catalog : List PromptPackage) (pid : String) :
    List PromptPackage × String :=
  (trackCatalog pid catalog, "Usage tracked successfully")

/-- Grade record produced by either grader. -/
structure PromptGrade where
  prompt_id : String
  user_input : String
  ai_response : String
  overall_score : ℚ
  accuracy : ℚ
  helpfulness : ℚ
  completeness : ℚ
  clarity : ℚ
  reasoning : String
  grader_type : String
  is_successful : Bool
  deriving DecidableEq, Repr

/-- Hedging phrases of `scoreAccuracy` (apostrophes written as `\x27`). -/
def errorIndicators : List String :=
  ["i don\x27t know", "i can\x27t", "i\x27m not sure", "i don\x27t have access"]

/-- Embedding of `scoreAccuracy`: baseline 5.0, −2.0 on a hedging phrase,
+1.0 on a response longer than 50 characters, clamped to [1,10]. -/
def scoreAccuracy (user_input ai_response : String) : ℚ :=
  let s0 : ℚ := 5
  let s1 :=
    if errorIndicators.any (fun ind => containsCI ai_response ind) then s0 - 2 else s0
  let s2 := if 50 < ai_response.data.length then s1 + 1 else s1
  max 1 (min 10 s2)

/-- Action words of `scoreHelpfulness`. -/
def actionWords : List String := ["here\x27s", "you can", "try", "use", "follow", "steps"]

/-- Embedding of `scoreHelpfulness`: baseline 5.0, +2.0 when the response is
longer than half the input, +1.0 on an action word, clamped to [1,10]. -/
def scoreHelpfulness (user_input ai_response : String) : ℚ :=
  let s0 : ℚ := 5
  let s1 :=
    if (user_input.data.length : ℚ) * 0.5 < (ai_response.data.length : ℚ) then s0 + 2
    else s0
  let s2 :=
    if actionWords.any (fun w => containsCI ai_response w) then s1 + 1 else s1
  max 1 (min 10 s2)

/-- Number of segments of the JavaScript `s.split(sep)` for a nonempty
separator (number of non-overlapping occurrences plus one). -/
def splitCount (sep : String) (s : String) : Nat := (s.splitOn sep).length

/-- Embedding of `scoreCompleteness`: baseline 5.0, +2.0 when the response
is longer than twice the input, +1.0 on more than 2 lines or more than 3
period-separated segments, clamped to [1,10]. -/
def scoreCompleteness (user_input ai_response : String) : ℚ :=
  let s0 : ℚ := 5
  let s1 :=
    if (user_input.data.length : ℚ) * 2 < (ai_response.data.length : ℚ) then s0 + 2
    else s0
  let s2 :=
    if 2 < splitCount "\n" ai_response || 3 < splitCount "." ai_response then s1 + 1
    else s1
  max 1 (min 10 s2)

/-- Embedding of `scoreClarity`: baseline 5.0, +1.0 on a newline, +1.0 when
splitting on `.` yields several segments whose mean length lies strictly
between 10 and 50, clamped to [1,10]. -/
def scoreClarity (ai_response : String) : ℚ :=
  let s0 : ℚ := 5
  let s1 := if occursL "\n".data ai_response.data then s0 + 1 else s0
  let sentences := ai_response.splitOn "."
  let s2 :=
    if 1 < sentences.length then
      let avgLength : ℚ :=
        ((sentences.map (fun s => (s.data.length : ℚ))).sum) / (sentences.length : ℚ)
      if 10 < avgLength ∧ avgLength < 50 then s1 + 1 else s1
    else s1
  max 1 (min 10 s2)

/-- Embedding of `gradeWithRules`: the four sub-scorers, the unweighted
mean, and the 7.0 success threshold. This grader is total. -/
def gradeWithRules (prompt_id user_input ai_response : String)
    (expected_outcome : Option String) : PromptGrade :=
  let accuracy := scoreAccuracy user_input ai_response
  let helpfulness := scoreHelpfulness user_input ai_response
  let completeness := scoreCompleteness user_input ai_response
  let clarity := scoreClarity ai_response
  let overallScore := (accuracy + helpfulness + completeness + clarity) / 4
  { prompt_id := prompt_id
    user_input := user_input
    ai_response := ai_response
    overall_score := overallScore
    accuracy := accuracy
    helpfulness := helpfulness
    completeness := completeness
    clarity := clarity
    reasoning := "Rule-based grading"
    grader_type := "rule_based"
    is_successful := decide (7 ≤ overallScore) }

/-- Parsed JSON object returned by the external grading backend: each field
may be absent (and a numeric field may be any rational). -/
structure RawLLMGrade where
  overall_score : Option ℚ
  accuracy : Option ℚ
  helpfulness : Option ℚ
  completeness : Option ℚ
  clarity : Option ℚ
  reasoning : Option String
  deriving DecidableEq, Repr

/-- JavaScript `x || 5.0` on an optional numeric field: absent and the falsy
number 0 both default to 5.0. -/
def numOrFive (x : Option ℚ) : ℚ :=
  match x with
  | none => 5
  | some v => if v = 0 then 5 else v

/-- JavaScript `x || "LLM grading"` on the optional reasoning field (the
empty string is falsy). -/
def reasoningOrDefault (x : Option String) : String :=
  match x with
  | none => "LLM grading"
  | some s => if s = "" then "LLM grading" else s

/-- Embedding of `gradeWithLLM`. The backend interaction (request, response
parsing) is abstracted into `backendResult`: `Except.error` is a thrown
request/parse failure (re-raised as `LLM grading failed`), `Except.ok` the
parsed JSON object. Numeric fields default through `|| 5.0` with no
clamping; the success flag is computed after defaulting. -/
def gradeWithLLM (hasBackend : Bool) (prompt_id user_input ai_response : String)
    (expected_outcome : Option String) (backendResult : Except String RawLLMGrade) :
    Except String PromptGrade :=
  if !hasBackend then Except.error "OpenAI client not initialized"
  else
    match backendResult with
    | Except.error e => Except.error ("LLM grading failed: " ++ e)
    | Except.ok gradeData =>
      Except.ok
        { prompt_id := prompt_id
          user_input := user_input
          ai_response := ai_response
          overall_score := numOrFive gradeData.overall_score
          accuracy := numOrFive gradeData.accuracy
          helpfulness := numOrFive gradeData.helpfulness
          completeness := numOrFive gradeData.completeness
          clarity := numOrFive gradeData.clarity
          reasoning := reasoningOrDefault gradeData.reasoning
          grader_type := "llm"
          is_successful := decide (7 ≤ numOrFive gradeData.overall_score) }

/-- Analytics record kept per prompt id. -/
structure PromptAnalytics where
  prompt_id : String
  total_uses : Nat
  successful_uses : Nat
  failed_uses : Nat
  success_rate : ℚ
  average_score : ℚ
  common_failures : List String
  improvement_suggestions : List String
  last_updated : String
  deriving DecidableEq, Repr

/-- Analytics store: the `Map` keyed by prompt id. -/
def AnalyticsMap : Type := String → Option PromptAnalytics

/-- Embedding of `updateAnalytics` on one record: create on first grade,
otherwise increment counts, recompute the success rate, and fold the new
score into the running average `(old_avg * (n - 1) + score) / n`. -/
def recordGrade (existing : Option PromptAnalytics) (grade : PromptGrade)
    (now : String) : PromptAnalytics :=
  match existing with
  | some a =>
    let total := a.total_uses + 1
    let succ := if grade.is_successful then a.successful_uses + 1 else a.successful_uses
    let fail := if grade.is_successful then a.failed_uses else a.failed_uses + 1
    { a with
      total_uses := total
      successful_uses := succ
      failed_uses := fail
      success_rate := (succ : ℚ) / (total : ℚ)
      average_score := (a.average_score * ((total : ℚ) - 1) + grade.overall_score) / (total : ℚ)
      last_updated := now }
  | none =>
    { prompt_id := grade.prompt_id
      total_uses := 1
      successful_uses := if grade.is_successful then 1 else 0
      failed_uses := if grade.is_successful then 0 else 1
      success_rate := if grade.is_successful then 1 else 0
      average_score := grade.overall_score
      common_failures := []
      improvement_suggestions := []
      last_updated := now }

/-- Embedding of `updateAnalytics` on the store. -/
def updateAnalyticsMap (m : AnalyticsMap) (grade : PromptGrade) (now : String) :
    AnalyticsMap :=
  fun k =>
    if k = grade.prompt_id then some (recordGrade (m grade.prompt_id) grade now)
    else m k

/-- Embedding of `gradePromptExecution`: the LLM grader is dispatched only
when it is requested and a backend is configured (`grader_type === "llm" &&
this.openai`); otherwise the rule-based grader runs. A grading failure
propagates before analytics are touched; on success the grade is folded
into the analytics store. -/
def gradePromptExecution (hasBackend : Bool) (grader_type : String)
    (prompt_id user_input ai_response : String) (expected_outcome : Option String)
    (m : AnalyticsMap) (now : String) (backendResult : Except String RawLLMGrade) :
    Except String (PromptGrade × AnalyticsMap) :=
  let gradeE :=
    if grader_type = "llm" && hasBackend then
      gradeWithLLM hasBackend prompt_id user_input ai_response expected_outcome
        backendResult
    else
      Except.ok (gradeWithRules prompt_id user_input ai_response expected_outcome)
  match gradeE with
  | Except.error e => Except.error e
  | Except.ok grade => Except.ok (grade, updateAnalyticsMap m grade now)

/-! ### Helper lemmas -/

/-- Empty analytics store. -/
def noAnalytics : AnalyticsMap := fun _ => none

theorem clamp_ge_one (x : ℚ) : 1 ≤ max 1 (min 10 x) := le_max_left 1 _

theorem clamp_le_ten (x : ℚ) : max 1 (min 10 x) ≤ 10 :=
  max_le (by norm_num) (min_le_left _ _)

theorem scoreAccuracy_bounds (ui resp : String) :
    1 ≤ scoreAccuracy ui resp ∧ scoreAccuracy ui resp ≤ 10 := by
  unfold scoreAccuracy
  exact ⟨clamp_ge_one _, clamp_le_ten _⟩

theorem scoreHelpfulness_bounds (ui resp : String) :
    1 ≤ scoreHelpfulness ui resp ∧ scoreHelpfulness ui resp ≤ 10 := by
  unfold scoreHelpfulness
  exact ⟨clamp_ge_one _, clamp_le_ten _⟩

theorem scoreCompleteness_bounds (ui resp : String) :
    1 ≤ scoreCompleteness ui resp ∧ scoreCompleteness ui resp ≤ 10 := by
  unfold scoreCompleteness
  exact ⟨clamp_ge_one _, clamp_le_ten _⟩

theorem scoreClarity_bounds (resp : String) :
    1 ≤ scoreClarity resp ∧ scoreClarity resp ≤ 10 := by
  unfold scoreClarity
  exact ⟨clamp_ge_one _, clamp_le_ten _⟩

theorem mean_four_bounds {a b c d : ℚ} (ha : 1 ≤ a ∧ a ≤ 10) (hb : 1 ≤ b ∧ b ≤ 10)
    (hc : 1 ≤ c ∧ c ≤ 10) (hd : 1 ≤ d ∧ d ≤ 10) :
    1 ≤ (a + b + c + d) / 4 ∧ (a + b + c + d) / 4 ≤ 10 := by
  obtain ⟨ha1, ha2⟩ := ha
  obtain ⟨hb1, hb2⟩ := hb
  obtain ⟨hc1, hc2⟩ := hc
  obtain ⟨hd1, hd2⟩ := hd
  constructor <;> [linarith; linarith]

theorem gradeWithRules_successful_iff (pid ui resp : String) (eo : Option String) :
    (gradeWithRules pid ui resp eo).is_successful = true ↔
      7 ≤ (gradeWithRules pid ui resp eo).overall_score :=
  ⟨of_decide_eq_true, fun h => decide_eq_true h⟩

theorem gradeWithRules_bounds (pid ui resp : String) (eo : Option String) :
    (1 ≤ (gradeWithRules pid ui resp eo).accuracy ∧
        (gradeWithRules pid ui resp eo).accuracy ≤ 10) ∧
      (1 ≤ (gradeWithRules pid ui resp eo).helpfulness ∧
        (gradeWithRules pid ui resp eo).helpfulness ≤ 10) ∧
      (1 ≤ (gradeWithRules pid ui resp eo).completeness ∧
        (gradeWithRules pid ui resp eo).completeness ≤ 10) ∧
      (1 ≤ (gradeWithRules pid ui resp eo).clarity ∧
        (gradeWithRules pid ui resp eo).clarity ≤ 10) ∧
      1 ≤ (gradeWithRules pid ui resp eo).overall_score ∧
      (gradeWithRules pid ui resp eo).overall_score ≤ 10 := by
  refine ⟨scoreAccuracy_bounds ui resp, scoreHelpfulness_bounds ui resp,
    scoreCompleteness_bounds ui resp, scoreClarity_bounds resp, ?_⟩
  exact mean_four_bounds (scoreAccuracy_bounds ui resp) (scoreHelpfulness_bounds ui resp)
    (scoreCompleteness_bounds ui resp) (scoreClarity_bounds resp)

/-! ### Claim C10 -/

/-- C10: a call to `preprocess_input` with an explicit empty transformations
list applies no transform — the processed text is the input verbatim, the
applied list is empty, and the confidence is exactly 1.0 — while the default
pipeline (intent normalization then noise removal) is substituted only when
the transformations field is absent. -/
theorem preprocessInput_empty_transformations (input : String) :
    preprocessInput input (some []) =
      { original_input := input
        processed_input := input
        transformations_applied := []
        confidence := 1 } ∧
    (preprocessInput input none).transformations_applied =
      ["intent_normalization", "noise_removal"] := by
  constructor
  · simp [preprocessInput, calculateConfidence]
  · rfl

/-! ### Claim C7 -/

/-- C7: the rule-based grader is total; each sub-score (baseline 5.0 plus
its fixed heuristics) is clamped to [1,10], the overall score is the
unweighted arithmetic mean of the four sub-scores, and the success flag
holds exactly when the overall score is at least 7.0. -/
theorem gradeWithRules_spec (pid ui resp : String) (eo : Option String) :
    (1 ≤ (gradeWithRules pid ui resp eo).accuracy ∧
        (gradeWithRules pid ui resp eo).accuracy ≤ 10) ∧
      (1 ≤ (gradeWithRules pid ui resp eo).helpfulness ∧
        (gradeWithRules pid ui resp eo).helpfulness ≤ 10) ∧
      (1 ≤ (gradeWithRules pid ui resp eo).completeness ∧
        (gradeWithRules pid ui resp eo).completeness ≤ 10) ∧
      (1 ≤ (gradeWithRules pid ui resp eo).clarity ∧
        (gradeWithRules pid ui resp eo).clarity ≤ 10) ∧
      (gradeWithRules pid ui resp eo).overall_score =
        ((gradeWithRules pid ui resp eo).accuracy +
            (gradeWithRules pid ui resp eo).helpfulness +
            (gradeWithRules pid ui resp eo).completeness +
            (gradeWithRules pid ui resp eo).clarity) / 4 ∧
      ((gradeWithRules pid ui resp eo).is_successful = true ↔
        7 ≤ (gradeWithRules pid ui resp eo).overall_score) ∧
      (gradeWithRules pid ui resp eo).grader_type = "rule_based" := by
  obtain ⟨ba, bh, bc, bl, _, _⟩ := gradeWithRules_bounds pid ui resp eo
  exact ⟨ba, bh, bc, bl, rfl, gradeWithRules_successful_iff pid ui resp eo, rfl⟩

/-! ### Claim C1 -/

/-- C1 counterexample: calling `grade_prompt_execution` with grader type
`llm` and no configured backend does not signal a failure — it produces a
rule-based grade and creates an analytics record for the prompt id. -/
theorem gradePromptExecution_llm_noBackend_cex :
    ((gradePromptExecution false "llm" "p1" "u" "a" none noAnalytics "t"
          (Except.error "no call")).toOption.map
        (fun r => (r.1.grader_type, (r.2 "p1").isSome))) =
      some ("rule_based", true) := by
  decide

/-- C1 amended: with grader type `llm` and no configured backend the
operation silently falls back to the rule-based grader — a `rule_based`
grade is produced and folded into the analytics store, and no failure is
signaled. -/
theorem gradePromptExecution_llm_noBackend_fallback (pid ui resp : String)
    (eo : Option String) (m : AnalyticsMap) (now : String)
    (backendResult : Except String RawLLMGrade) :
    gradePromptExecution false "llm" pid ui resp eo m now backendResult =
      Except.ok (gradeWithRules pid ui resp eo,
        updateAnalyticsMap m (gradeWithRules pid ui resp eo) now) ∧
    (gradeWithRules pid ui resp eo).grader_type = "rule_based" :=
  ⟨rfl, rfl⟩

/-! ### Claim C4 -/

/-- Rewrite rules of `normalizeIntent` in source order, each paired with its
trigger test. -/
def intentRules : List ((List Char → Bool) × (List Char → List Char)) :=
  [(occursL "can you ".data, deleteFirstL "can you ".data),
    (occursL "could you ".data, deleteFirstL "could you ".data),
    (occursL "would you ".data, deleteFirstL "would you ".data),
    (occursL "please ".data, deleteFirstL "please ".data),
    (occursL "tell me ".data, replaceFirstL "tell me ".data "explain ".data),
    (fun l => (hdwSearch l).isSome, rewriteHowDoesWorkL),
    (occursL "what is ".data, replaceFirstL "what is ".data "define ".data)]

/-- Sequential application of every rewrite rule, each to the output of the
previous one — what the source does. -/
def applyRulesSeq (l : List Char) : List Char :=
  intentRules.foldl (fun acc r => r.2 acc) l

/-- Application of only the first matching rewrite rule. -/
def applyFirstRule : List ((List Char → Bool) × (List Char → List Char)) →
    List Char → List Char
  | [], l => l
  | r :: rest, l => if r.1 l then r.2 l else applyFirstRule rest l

/-- Reading of the claim (first matching rewrite rule is the only one
applied): lowercase and trim, strip the greeting, apply the first matching
rule only, final trim. -/
def normalizeIntentFirstMatch (text : String) : String :=
  ⟨jsTrimL (applyFirstRule intentRules (stripGreetingL (jsTrimL (lowerL text.data))))⟩

/-- C4 counterexample: on `"can you tell me about recursion"` the code first
deletes `can you ` and then rewrites `tell me ` on the intermediate result —
two rewrite rules fire in one call, so the output differs from the
first-match-only reading of the claim. -/
theorem normalizeIntent_firstMatch_cex :
    normalizeIntent "can you tell me about recursion" = "explain about recursion" ∧
    normalizeIntentFirstMatch "can you tell me about recursion" =
      "tell me about recursion" ∧
    normalizeIntent "can you tell me about recursion" ≠
      normalizeIntentFirstMatch "can you tell me about recursion" := by
  refine ⟨by decide, by decide, by decide⟩

/-- C4 amended: `normalizeIntent` lowercases and trims, strips a leading
greeting token, then applies EVERY rewrite rule in the fixed source order,
each one to the current text produced by the previous rules (so several
rules may rewrite in a single call), followed by a final trim. -/
theorem normalizeIntent_sequential_rewrites (text : String) :
    normalizeIntent text =
      ⟨jsTrimL (applyRulesSeq (stripGreetingL (jsTrimL (lowerL text.data))))⟩ := by
  unfold normalizeIntent applyRulesSeq intentRules
  simp only [List.foldl]

/-! ### Claim C6 -/

/-- Backend response carrying out-of-range scores. -/
def rawEleven : RawLLMGrade :=
  { overall_score := some 11
    accuracy := some 11
    helpfulness := some 11
    completeness := some 11
    clarity := some 11
    reasoning := none }

/-- C6 counterexample: a grade produced by `grade_prompt_execution` in llm
mode stores the backend-supplied overall score without clamping — here 11,
which lies outside [1,10]. -/
theorem grade_llm_unclamped_cex :
    ((gradePromptExecution true "llm" "p1" "u" "a" none noAnalytics "t"
          (Except.ok rawEleven)).toOption.map (fun r => r.1.overall_score)) =
      some 11 ∧
    ¬((11 : ℚ) ≤ 10) := by
  refine ⟨rfl, by norm_num⟩

/-- C6 amended: for every grade produced by `grade_prompt_execution`, the
success flag holds exactly when the overall score is at least 7.0; grades
from the rule-based grader additionally have all four sub-scores and the
overall score in [1,10], while llm-mode grades carry the backend-supplied
(falsy-defaulted to 5.0) values unclamped and may lie outside [1,10]. -/
theorem grade_scores_amended (hasBackend : Bool) (grader_type pid ui resp : String)
    (eo : Option String) (m : AnalyticsMap) (now : String)
    (br : Except String RawLLMGrade) (g : PromptGrade) (m2 : AnalyticsMap)
    (h : gradePromptExecution hasBackend grader_type pid ui resp eo m now br =
      Except.ok (g, m2)) :
    (g.is_successful = true ↔ 7 ≤ g.overall_score) ∧
    (g.grader_type = "rule_based" →
      (1 ≤ g.accuracy ∧ g.accuracy ≤ 10) ∧ (1 ≤ g.helpfulness ∧ g.helpfulness ≤ 10) ∧
        (1 ≤ g.completeness ∧ g.completeness ≤ 10) ∧
        (1 ≤ g.clarity ∧ g.clarity ≤ 10) ∧
        1 ≤ g.overall_score ∧ g.overall_score ≤ 10) := by
  unfold gradePromptExecution at h
  by_cases hd : (decide (grader_type = "llm") && hasBackend) = true
  · rw [if_pos hd] at h
    unfold gradeWithLLM at h
    cases hasBackend with
    | false => simp at hd
    | true =>
    have hno : ¬((!true : Bool) = true) := by decide
    rw [if_neg hno] at h
    cases br with
    | error e => exact absurd h (by simp)
    | ok d =>
      simp only [Except.ok.injEq, Prod.mk.injEq] at h
      obtain ⟨hg, -⟩ := h
      subst hg
      constructor
      · exact ⟨of_decide_eq_true, fun hle => decide_eq_true hle⟩
      · intro hgt
        simp only [PromptGrade.grader_type] at hgt
        exact absurd hgt (by decide)
  · rw [if_neg hd] at h
    simp only [Except.ok.injEq, Prod.mk.injEq] at h
    obtain ⟨hg, -⟩ := h
    subst hg
    exact ⟨gradeWithRules_successful_iff pid ui resp eo,
      fun _ => gradeWithRules_bounds pid ui resp eo⟩

/-- C6 amended, witness: the theorem applied to a concrete rule-based
dispatch. -/
theorem grade_scores_amended_witness :
    ((gradeWithRules "p1" "u" "a" none).is_successful = true ↔
      7 ≤ (gradeWithRules "p1" "u" "a" none).overall_score) ∧
    ((gradeWithRules "p1" "u" "a" none).grader_type = "rule_based" →
      (1 ≤ (gradeWithRules "p1" "u" "a" none).accuracy ∧
          (gradeWithRules "p1" "u" "a" none).accuracy ≤ 10) ∧
        (1 ≤ (gradeWithRules "p1" "u" "a" none).helpfulness ∧
          (gradeWithRules "p1" "u" "a" none).helpfulness ≤ 10) ∧
        (1 ≤ (gradeWithRules "p1" "u" "a" none).completeness ∧
          (gradeWithRules "p1" "u" "a" none).completeness ≤ 10) ∧
        (1 ≤ (gradeWithRules "p1" "u" "a" none).clarity ∧
          (gradeWithRules "p1" "u" "a" none).clarity ≤ 10) ∧
        1 ≤ (gradeWithRules "p1" "u" "a" none).overall_score ∧
        (gradeWithRules "p1" "u" "a" none).overall_score ≤ 10) :=
  grade_scores_amended false "llm" "p1" "u" "a" none noAnalytics "t"
    (Except.error "no call") (gradeWithRules "p1" "u" "a" none)
    (updateAnalyticsMap noAnalytics (gradeWithRules "p1" "u" "a" none) "t") rfl

/-! ### Claim C3 -/

/-- Invariant tying an analytics record to the list of grades folded into
it so far. -/
def AnalyticsInv (a : PromptAnalytics) (gs : List PromptGrade) : Prop :=
  a.total_uses = gs.length ∧
  a.successful_uses = gs.countP (fun g => g.is_successful) ∧
  a.successful_uses + a.failed_uses = gs.length ∧
  a.success_rate = ((gs.countP (fun g => g.is_successful) : ℚ) / (gs.length : ℚ)) ∧
  a.average_score = ((gs.map (fun g => g.overall_score)).sum / (gs.length : ℚ))

theorem analyticsInv_first (g : PromptGrade) (now : String) :
    AnalyticsInv (recordGrade none g now) [g] := by
  unfold AnalyticsInv recordGrade
  cases hs : g.is_successful <;>
    simp [List.countP_cons, hs]

theorem analyticsInv_step {a : PromptAnalytics} {gs : List PromptGrade}
    (hInv : AnalyticsInv a gs) (hne : gs ≠ []) (g : PromptGrade) (now : String) :
    AnalyticsInv (recordGrade (some a) g now) (gs ++ [g]) := by
  obtain ⟨ht, hsucc, hsf, hrate, havg⟩ := hInv
  have hlen : (gs.length : ℚ) ≠ 0 := by
    have h1 : gs.length ≠ 0 := fun h => hne (List.length_eq_zero.mp h)
    exact_mod_cast h1
  unfold AnalyticsInv recordGrade
  refine ⟨?_, ?_, ?_, ?_, ?_⟩
  · simp [ht]
  · cases hs : g.is_successful <;>
      simp [List.countP_append, List.countP_cons, hs, hsucc]
  · cases hs : g.is_successful <;>
      simp [List.countP_append, List.countP_cons, hs, List.length_append] <;>
      omega
  · cases hs : g.is_successful <;>
      simp [List.countP_append, List.countP_cons, hs, hsucc, ht, List.length_append]
  · simp only [ht]
    rw [havg]
    push_cast
    try field_simp
    try ring

/-- Folding further grades for the same id preserves the invariant. -/
theorem analytics_fold (now pid : String) :
    ∀ (rest : List PromptGrade) (m : AnalyticsMap) (done : List PromptGrade)
      (a : PromptAnalytics),
      m pid = some a → AnalyticsInv a done → done ≠ [] →
      (∀ g ∈ rest, g.prompt_id = pid) →
      ∃ a2, (rest.foldl (fun mm g => updateAnalyticsMap mm g now) m) pid = some a2 ∧
        AnalyticsInv a2 (done ++ rest) := by
  intro rest
  induction rest with
  | nil =>
    intro m done a hm hInv _ _
    exact ⟨a, by simpa using hm, by simpa using hInv⟩
  | cons g rest ih =>
    intro m done a hm hInv hne hall
    have hg : g.prompt_id = pid := hall g (List.mem_cons_self g rest)
    have hm2 : (updateAnalyticsMap m g now) pid = some (recordGrade (some a) g now) := by
      unfold updateAnalyticsMap
      rw [if_pos hg.symm, hg, hm]
    have hInv2 : AnalyticsInv (recordGrade (some a) g now) (done ++ [g]) :=
      analyticsInv_step hInv hne g now
    have hne2 : done ++ [g] ≠ [] := by simp
    have hall2 : ∀ x ∈ rest, x.prompt_id = pid :=
      fun x hx => hall x (List.mem_cons_of_mem g hx)
    obtain ⟨a2, hfold, hInv3⟩ :=
      ih (updateAnalyticsMap m g now) (done ++ [g]) (recordGrade (some a) g now)
        hm2 hInv2 hne2 hall2
    refine ⟨a2, ?_, ?_⟩
    · simpa using hfold
    · simpa [List.append_assoc] using hInv3

/-- C3: starting from a state with no analytics record for an id, after any
nonempty sequence of grades recorded for that id the record shows
`total_uses = N`, `successful_uses` counting exactly the successful grades,
`successful_uses + failed_uses = N`, `success_rate = successful_uses / N`,
and `average_score` equal to the arithmetic mean of the `N` overall scores
(the incremental update is exact in this rational-number model). -/
theorem updateAnalytics_fold_spec (m0 : AnalyticsMap) (pid now : String)
    (gs : List PromptGrade) (h0 : m0 pid = none) (hne : gs ≠ [])
    (hall : ∀ g ∈ gs, g.prompt_id = pid) :
    ((gs.foldl (fun mm g => updateAnalyticsMap mm g now) m0) pid).map
        (fun a => a.total_uses) = some gs.length ∧
    ((gs.foldl (fun mm g => updateAnalyticsMap mm g now) m0) pid).map
        (fun a => a.successful_uses) =
      some (gs.countP (fun g => g.is_successful)) ∧
    ((gs.foldl (fun mm g => updateAnalyticsMap mm g now) m0) pid).map
        (fun a => a.successful_uses + a.failed_uses) = some gs.length ∧
    ((gs.foldl (fun mm g => updateAnalyticsMap mm g now) m0) pid).map
        (fun a => a.success_rate) =
      some ((gs.countP (fun g => g.is_successful) : ℚ) / (gs.length : ℚ)) ∧
    ((gs.foldl (fun mm g => updateAnalyticsMap mm g now) m0) pid).map
        (fun a => a.average_score) =
      some ((gs.map (fun g => g.overall_score)).sum / (gs.length : ℚ)) := by
  cases gs with
  | nil => exact absurd rfl hne
  | cons g rest =>
    have hg : g.prompt_id = pid := hall g (List.mem_cons_self g rest)
    have hm1 : (updateAnalyticsMap m0 g now) pid = some (recordGrade none g now) := by
      unfold updateAnalyticsMap
      rw [if_pos hg.symm, hg, h0]
    have hall2 : ∀ x ∈ rest, x.prompt_id = pid :=
      fun x hx => hall x (List.mem_cons_of_mem g hx)
    obtain ⟨a2, hfold, hInv⟩ :=
      analytics_fold now pid rest (updateAnalyticsMap m0 g now) [g]
        (recordGrade none g now) hm1 (analyticsInv_first g now) (by simp) hall2
    have hfold2 : ((g :: rest).foldl (fun mm g => updateAnalyticsMap mm g now) m0) pid =
        some a2 := by simpa using hfold
    obtain ⟨ht, hsucc, hsf, hrate, havg⟩ := hInv
    simp only [List.singleton_append] at ht hsucc hsf hrate havg
    rw [hfold2]
    simp only [Option.map_some']
    refine ⟨?_, ?_, ?_, ?_, ?_⟩
    · rw [ht]
    · rw [hsucc]
    · rw [hsf]
    · rw [hrate]
    · rw [havg]

/-- Concrete successful grade used by the C3 witness. -/
def wGrade1 : PromptGrade :=
  { prompt_id := "p", user_input := "u", ai_response := "a", overall_score := 8,
    accuracy := 8, helpfulness := 8, completeness := 8, clarity := 8,
    reasoning := "r", grader_type := "rule_based", is_successful := true }

/-- Concrete failed grade used by the C3 witness. -/
def wGrade2 : PromptGrade :=
  { prompt_id := "p", user_input := "u", ai_response := "a", overall_score := 4,
    accuracy := 4, helpfulness := 4, completeness := 4, clarity := 4,
    reasoning := "r", grader_type := "rule_based", is_successful := false }

/-- C3 witness: the invariant theorem applied to two concrete grades. -/
theorem updateAnalytics_fold_spec_witness :
    ((([wGrade1, wGrade2].foldl (fun mm g => updateAnalyticsMap mm g "t") noAnalytics)
          "p").map (fun a => a.total_uses) = some 2) ∧
    ((([wGrade1, wGrade2].foldl (fun mm g => updateAnalyticsMap mm g "t") noAnalytics)
          "p").map (fun a => a.successful_uses) = some 1) ∧
    ((([wGrade1, wGrade2].foldl (fun mm g => updateAnalyticsMap mm g "t") noAnalytics)
          "p").map (fun a => a.successful_uses + a.failed_uses) = some 2) ∧
    ((([wGrade1, wGrade2].foldl (fun mm g => updateAnalyticsMap mm g "t") noAnalytics)
          "p").map (fun a => a.success_rate) = some ((1 : ℚ) / 2)) ∧
    ((([wGrade1, wGrade2].foldl (fun mm g => updateAnalyticsMap mm g "t") noAnalytics)
          "p").map (fun a => a.average_score) = some ((12 : ℚ) / 2)) := by
  have h := updateAnalytics_fold_spec noAnalytics "p" "t" [wGrade1, wGrade2] rfl
    (by decide) (by decide)
  exact ⟨h.1.trans (by decide), h.2.1.trans (by decide), h.2.2.1.trans (by decide),
    h.2.2.2.1.trans (by norm_num [wGrade1, wGrade2, List.countP_cons]),
    h.2.2.2.2.trans (by norm_num [wGrade1, wGrade2])⟩

/-! ### Claim C9 -/

theorem incFirst_spec (pid : String) (pre2 : List Prompt) (p : Prompt)
    (post2 : List Prompt) (hp : p.id = pid) (hpre2 : ∀ r ∈ pre2, r.id ≠ pid) :
    incFirst pid (pre2 ++ p :: post2) =
      pre2 ++ { p with usage_count := p.usage_count + 1 } :: post2 := by
  induction pre2 with
  | nil =>
    simp only [List.nil_append, incFirst]
    rw [if_pos hp]
  | cons q t ih =>
    have hq : q.id ≠ pid := hpre2 q (List.mem_cons_self q t)
    simp only [List.cons_append, incFirst, List.append_eq]
    rw [if_neg hq, ih (fun r hr => hpre2 r (List.mem_cons_of_mem q hr))]

theorem anyId_eq_false {pid : String} {l : List Prompt}
    (h : ∀ r ∈ l, r.id ≠ pid) : l.any (fun p => p.id = pid) = false := by
  simp only [List.any_eq_false, decide_eq_true_eq]
  exact h

theorem trackCatalog_absent (pid : String) (catalog : List PromptPackage)
    (h : ∀ pkg ∈ catalog, ∀ r ∈ pkg.prompts, r.id ≠ pid) :
    trackCatalog pid catalog = catalog := by
  induction catalog with
  | nil => rfl
  | cons pkg rest ih =>
    simp only [trackCatalog]
    rw [if_neg, ih (fun q hq => h q (List.mem_cons_of_mem pkg hq))]
    simp only [anyId_eq_false (h pkg (List.mem_cons_self pkg rest))]
    exact Bool.false_ne_true

/-- C9: `track_prompt_usage` increments the usage count of exactly the first
prompt (in catalog order) carrying the given id by exactly 1, leaving every
other field and every other prompt in every package unchanged; when no
prompt carries the id it changes no state at all; and in both cases the
same success confirmation (never an error) is returned. -/
theorem trackPromptUsage_spec (catalog : List PromptPackage) (pid : String) :
    ((∀ pkg ∈ catalog, ∀ r ∈ pkg.prompts, r.id ≠ pid) →
      trackPromptUsage catalog pid = (catalog, "Usage tracked successfully")) ∧
    (∀ pre pkg post pre2 p post2,
      catalog = pre ++ pkg :: post →
      pkg.prompts = pre2 ++ p :: post2 →
      p.id = pid →
      (∀ q ∈ pre, ∀ r ∈ q.prompts, r.id ≠ pid) →
      (∀ r ∈ pre2, r.id ≠ pid) →
      trackPromptUsage catalog pid =
        (pre ++
            { pkg with
              prompts := pre2 ++ { p with usage_count := p.usage_count + 1 } :: post2 } ::
              post,
          "Usage tracked successfully")) := by
  constructor
  · intro h
    unfold trackPromptUsage
    rw [trackCatalog_absent pid catalog h]
  · intro pre pkg post pre2 p post2 hcat hpr hp hpre hpre2
    subst hcat
    unfold trackPromptUsage
    have hmain : ∀ pre1 : List PromptPackage,
        (∀ q ∈ pre1, ∀ r ∈ q.prompts, r.id ≠ pid) →
        trackCatalog pid (pre1 ++ pkg :: post) =
          pre1 ++
            { pkg with
              prompts := pre2 ++ { p with usage_count := p.usage_count + 1 } :: post2 } ::
              post := by
      intro pre1
      induction pre1 with
      | nil =>
        intro _
        simp only [List.nil_append, trackCatalog]
        have hany : pkg.prompts.any (fun q => q.id = pid) = true := by
          rw [List.any_eq_true]
          exact ⟨p, by rw [hpr]; exact List.mem_append_right pre2 (List.mem_cons_self p post2),
            decide_eq_true hp⟩
        rw [if_pos hany, hpr, incFirst_spec pid pre2 p post2 hp hpre2]
      | cons q t ih =>
        intro hq
        simp only [List.cons_append, trackCatalog, List.append_eq]
        rw [if_neg, ih (fun x hx => hq x (List.mem_cons_of_mem q hx))]
        simp only [anyId_eq_false (hq q (List.mem_cons_self q t))]
        exact Bool.false_ne_true
    rw [hmain pre hpre]

/-- Prompt without the tracked id, used by the C9 witness. -/
def wPromptA : Prompt :=
  { id := "a", name := "A", content := "ca", version := "1.0.0", description := none,
    tags := [], author := none, usage_count := 3, success_rate := none }

/-- Prompt carrying the tracked id, used by the C9 witness. -/
def wPromptB : Prompt :=
  { id := "b", name := "B", content := "cb", version := "1.0.0", description := none,
    tags := [], author := none, usage_count := 7, success_rate := none }

/-- Package holding the two witness prompts. -/
def wPackage : PromptPackage :=
  { name := "pkg", version := "1.0.0", description := none, author := none,
    prompts := [wPromptA, wPromptB] }

/-- C9 witness: the theorem applied to a concrete catalog, exercising both
the absent-id branch and the increment branch. -/
theorem trackPromptUsage_spec_witness :
    trackPromptUsage [wPackage] "zzz" = ([wPackage], "Usage tracked successfully") ∧
    trackPromptUsage [wPackage] "b" =
      ([{ wPackage with
          prompts := [wPromptA, { wPromptB with usage_count := wPromptB.usage_count + 1 }] }],
        "Usage tracked successfully") :=
  ⟨(trackPromptUsage_spec [wPackage] "zzz").1 (by decide),
    (trackPromptUsage_spec [wPackage] "b").2 [] wPackage [] [wPromptA] wPromptB []
      rfl rfl rfl (by decide) (by decide)⟩

/-! ### Claim C2 -/

theorem findTagMatch_eq (catalog : List PromptPackage) (inputLower : String) :
    findTagMatch catalog inputLower =
      (allPrompts catalog).find? (fun p => tagRuleMatches inputLower p) := by
  induction catalog with
  | nil => rfl
  | cons pkg rest ih =>
    simp only [findTagMatch, allPrompts, List.flatMap_cons, List.find?_append]
    rw [ih]
    cases pkg.prompts.find? (fun p => tagRuleMatches inputLower p) <;>
      simp [allPrompts]

theorem find?_first {α : Type} (p : α → Bool) (pre : List α) (x : α) (suf : List α)
    (hpre : ∀ q ∈ pre, p q = false) (hx : p x = true) :
    (pre ++ x :: suf).find? p = some x := by
  induction pre with
  | nil => simpa using List.find?_cons_of_pos suf hx
  | cons q t ih =>
    have hq : ¬p q = true := by
      rw [hpre q (List.mem_cons_self q t)]
      exact Bool.false_ne_true
    simp only [List.cons_append]
    rw [List.find?_cons_of_neg _ hq]
    exact ih (fun r hr => hpre r (List.mem_cons_of_mem q hr))

theorem mostUsed_scan_fix (l : List Prompt) (acc : Option Prompt × Nat)
    (h : ∀ q ∈ l, q.usage_count ≤ acc.2) : l.foldl mostUsedStep acc = acc := by
  induction l generalizing acc with
  | nil => rfl
  | cons q t ih =>
    have hq : ¬acc.2 < q.usage_count :=
      not_lt.mpr (h q (List.mem_cons_self q t))
    simp only [List.foldl_cons, mostUsedStep, if_neg hq]
    exact ih acc (fun r hr => h r (List.mem_cons_of_mem q hr))

theorem mostUsed_scan_lt (l : List Prompt) (acc : Option Prompt × Nat) (B : Nat)
    (hacc : acc.2 < B) (h : ∀ q ∈ l, q.usage_count < B) :
    (l.foldl mostUsedStep acc).2 < B := by
  induction l generalizing acc with
  | nil => exact hacc
  | cons q t ih =>
    simp only [List.foldl_cons, mostUsedStep]
    by_cases hlt : acc.2 < q.usage_count
    · rw [if_pos hlt]
      exact ih (some q, q.usage_count) (h q (List.mem_cons_self q t))
        (fun r hr => h r (List.mem_cons_of_mem q hr))
    · rw [if_neg hlt]
      exact ih acc hacc (fun r hr => h r (List.mem_cons_of_mem q hr))

theorem mostUsed_scan_keepSome (l : List Prompt) (acc : Option Prompt × Nat)
    (h : acc.1.isSome = true) : (l.foldl mostUsedStep acc).1.isSome = true := by
  induction l generalizing acc with
  | nil => exact h
  | cons q t ih =>
    simp only [List.foldl_cons, mostUsedStep]
    by_cases hlt : acc.2 < q.usage_count
    · rw [if_pos hlt]
      exact ih (some q, q.usage_count) rfl
    · rw [if_neg hlt]
      exact ih acc h

theorem mostUsed_first_max (pre : List Prompt) (p : Prompt) (suf : List Prompt)
    (hpos : 0 < p.usage_count)
    (hmax : ∀ q ∈ pre ++ p :: suf, q.usage_count ≤ p.usage_count)
    (hpre : ∀ q ∈ pre, q.usage_count < p.usage_count) :
    mostUsed (pre ++ p :: suf) = some p := by
  unfold mostUsed
  rw [List.foldl_append]
  have haccPre : ((pre.foldl mostUsedStep (none, 0)).2) < p.usage_count :=
    mostUsed_scan_lt pre (none, 0) p.usage_count hpos hpre
  simp only [List.foldl_cons]
  rw [show mostUsedStep (pre.foldl mostUsedStep (none, 0)) p =
      (some p, p.usage_count) from by simp [mostUsedStep, if_pos haccPre]]
  rw [mostUsed_scan_fix suf (some p, p.usage_count)
    (fun q hq => hmax q (List.mem_append_right pre (List.mem_cons_of_mem p hq)))]

theorem mostUsed_eq_none_of_all_zero (l : List Prompt)
    (h : ∀ q ∈ l, q.usage_count = 0) : mostUsed l = none := by
  unfold mostUsed
  rw [mostUsed_scan_fix l (none, 0) (fun q hq => Nat.le_of_eq (h q hq))]

theorem mostUsed_isSome_of_pos (l : List Prompt) (q : Prompt) (hq : q ∈ l)
    (hpos : 0 < q.usage_count) : (mostUsed l).isSome = true := by
  unfold mostUsed
  induction l with
  | nil => exact absurd hq (List.not_mem_nil q)
  | cons x t ih =>
    simp only [List.foldl_cons, mostUsedStep]
    rcases List.mem_cons.mp hq with hqx | hqt
    · subst hqx
      rw [if_pos hpos]
      exact mostUsed_scan_keepSome t (some q, q.usage_count) rfl
    · by_cases hlt : (0 : Nat) < x.usage_count
      · rw [if_pos hlt]
        exact mostUsed_scan_keepSome t (some x, x.usage_count) rfl
      · rw [if_neg hlt]
        exact ih hqt

/-- Untagged prompt with usage count 0, used by the C2 counterexample. -/
def cexPrompt : Prompt :=
  { id := "p0", name := "n", content := "c", version := "1.0.0", description := none,
    tags := [], author := none, usage_count := 0, success_rate := none }

/-- Catalog holding only `cexPrompt`. -/
def cexCatalog : List PromptPackage :=
  [{ name := "pkg", version := "1.0.0", description := none, author := none,
     prompts := [cexPrompt] }]

/-- C2 counterexample: a non-empty catalog (one untagged prompt with usage
count 0) for which `get_best_prompt` still signals the no-prompts-available
failure, refuting that the failure occurs exactly on the empty catalog. -/
theorem getBestPrompt_nonempty_error_cex :
    getBestPrompt cexCatalog "x" = Except.error "No prompts available" ∧
    allPrompts cexCatalog ≠ [] := by
  constructor
  · rfl
  · simp [allPrompts, cexCatalog]

/-- C2 amended: the first prompt in catalog order satisfying a tag rule
(input contains 'code' and the lowercased tags contain 'code'; input
contains 'customer' and tags 'customer'; input contains 'explain' and tags
'educational' — for each prompt the disjunction of the three rules) is
returned; if no prompt satisfies a rule, the first prompt achieving the
strictly positive maximum usage_count is returned (first wins ties); the
no-prompts-available failure is signaled exactly when no tag rule selects a
prompt and no prompt has usage_count > 0 — which includes, but is not
limited to, the empty catalog. -/
theorem getBestPrompt_selection_amended (catalog : List PromptPackage) (input : String) :
    (∀ pre p suf,
      allPrompts catalog = pre ++ p :: suf →
      tagRuleMatches (toLowerStr input) p = true →
      (∀ q ∈ pre, tagRuleMatches (toLowerStr input) q = false) →
      getBestPrompt catalog input = Except.ok (p, preprocessInput input none)) ∧
    ((∀ q ∈ allPrompts catalog, tagRuleMatches (toLowerStr input) q = false) →
      ∀ pre p suf,
        allPrompts catalog = pre ++ p :: suf →
        0 < p.usage_count →
        (∀ q ∈ allPrompts catalog, q.usage_count ≤ p.usage_count) →
        (∀ q ∈ pre, q.usage_count < p.usage_count) →
        getBestPrompt catalog input = Except.ok (p, preprocessInput input none)) ∧
    (getBestPrompt catalog input = Except.error "No prompts available" ↔
      (∀ q ∈ allPrompts catalog,
        tagRuleMatches (toLowerStr input) q = false ∧ q.usage_count = 0)) := by
  refine ⟨?_, ?_, ?_⟩
  · intro pre p suf hdec hrule hpre
    unfold getBestPrompt
    rw [findTagMatch_eq, hdec, find?_first _ pre p suf hpre hrule]
  · intro hnone pre p suf hdec hpos hmax hpre
    unfold getBestPrompt
    rw [findTagMatch_eq, List.find?_eq_none.mpr
      (fun x hx => by rw [hnone x hx]; exact Bool.false_ne_true)]
    rw [hdec] at hmax ⊢
    rw [mostUsed_first_max pre p suf hpos hmax hpre]
  · constructor
    · intro herr q hq
      unfold getBestPrompt at herr
      rcases hfind : findTagMatch catalog (toLowerStr input) with _ | p0
      · rcases hmu : mostUsed (allPrompts catalog) with _ | p1
        · constructor
          · rw [findTagMatch_eq] at hfind
            have hall := List.find?_eq_none.mp hfind q hq
            exact Bool.not_eq_true _ |>.mp hall
          · by_contra hnz
            have hpos : 0 < q.usage_count := Nat.pos_of_ne_zero hnz
            have hsome := mostUsed_isSome_of_pos (allPrompts catalog) q hq hpos
            rw [hmu] at hsome
            exact absurd hsome (by simp)
        · rw [hfind, hmu] at herr
          exact absurd herr (by simp)
      · rw [hfind] at herr
        exact absurd herr (by simp)
    · intro hall
      unfold getBestPrompt
      rw [findTagMatch_eq, List.find?_eq_none.mpr
        (fun x hx => by rw [(hall x hx).1]; exact Bool.false_ne_true)]
      rw [mostUsed_eq_none_of_all_zero (allPrompts catalog) (fun q hq => (hall q hq).2)]

/-- Prompt tagged `code`, used by the C2 witness. -/
def wTagPrompt : Prompt :=
  { id := "t1", name := "T", content := "ct", version := "1.0.0", description := none,
    tags := ["code"], author := none, usage_count := 0, success_rate := none }

/-- Package holding the tagged witness prompt. -/
def wTagPackage : PromptPackage :=
  { name := "tagged", version := "1.0.0", description := none, author := none,
    prompts := [wTagPrompt] }

/-- C2 witness: the theorem applied to a concrete tag-rule selection and to
a concrete usage-count fallback. -/
theorem getBestPrompt_selection_amended_witness :
    getBestPrompt [wTagPackage] "write code" =
      Except.ok (wTagPrompt, preprocessInput "write code" none) ∧
    getBestPrompt [wPackage] "hello there" =
      Except.ok (wPromptB, preprocessInput "hello there" none) :=
  ⟨(getBestPrompt_selection_amended [wTagPackage] "write code").1 [] wTagPrompt []
      rfl (by decide) (fun q hq => absurd hq (List.not_mem_nil q)),
    (getBestPrompt_selection_amended [wPackage] "hello there").2.1 (by decide)
      [wPromptA] wPromptB [] rfl (by decide) (by decide) (by decide)⟩

/-! ### Claim C5 -/

theorem filter_orderedInsert (c : ℚ) (a : Prompt) (l : List Prompt) :
    (List.orderedInsert searchGE a l).filter (fun x => decide (promptScore x = c)) =
      if promptScore a = c then
        a :: l.filter (fun x => decide (promptScore x = c))
      else l.filter (fun x => decide (promptScore x = c)) := by
  induction l with
  | nil =>
    by_cases hac : promptScore a = c <;>
      simp [List.orderedInsert, List.filter_cons, hac]
  | cons b t ih =>
    by_cases hab : searchGE a b
    · simp only [List.orderedInsert, if_pos hab]
      by_cases hac : promptScore a = c <;>
        simp [List.filter_cons, hac]
    · simp only [List.orderedInsert, if_neg hab]
      have hba : promptScore a < promptScore b := not_le.mp hab
      by_cases hac : promptScore a = c
      · have hbc : ¬promptScore b = c := by
          rw [← hac]
          exact ne_of_gt hba
        simp [List.filter_cons, hbc, ih, hac]
      · by_cases hbc : promptScore b = c <;>
          simp [List.filter_cons, hbc, ih, hac]

theorem filter_insertionSort (c : ℚ) (l : List Prompt) :
    (List.insertionSort searchGE l).filter (fun x => decide (promptScore x = c)) =
      l.filter (fun x => decide (promptScore x = c)) := by
  induction l with
  | nil => rfl
  | cons b t ih =>
    simp only [List.insertionSort, filter_orderedInsert, ih]
    by_cases hbc : promptScore b = c <;>
      simp [List.filter_cons, hbc]

/-- C5: `search_prompts` returns exactly the prompts matching the query
(case-insensitive substring of name, content, or description — a missing
description never matches) and, when tags are supplied, sharing at least one
tag verbatim; results are ordered by descending `usage_count +
success_rate*100` (missing rate treated as 0) with ties retaining catalog
encounter order (the filtered order is preserved within each score class);
the result list is truncated to `limit` while `total` reports the
pre-truncation count. -/
theorem searchPrompts_spec (catalog : List PromptPackage) (query : String)
    (tags : Option (List String)) (limit : Nat) :
    (searchSorted catalog query tags).Perm
      ((allPrompts catalog).filter
        (fun p => matchesQuery query p && matchesTags tags p)) ∧
    List.Sorted searchGE (searchSorted catalog query tags) ∧
    (∀ c : ℚ,
      (searchSorted catalog query tags).filter (fun p => decide (promptScore p = c)) =
        ((allPrompts catalog).filter
            (fun p => matchesQuery query p && matchesTags tags p)).filter
          (fun p => decide (promptScore p = c))) ∧
    (∀ p, p ∈ searchSorted catalog query tags ↔
      p ∈ allPrompts catalog ∧ (matchesQuery query p && matchesTags tags p) = true) ∧
    (searchPrompts catalog query tags limit).results =
      (searchSorted catalog query tags).take limit ∧
    (searchPrompts catalog query tags limit).total =
      ((allPrompts catalog).filter
        (fun p => matchesQuery query p && matchesTags tags p)).length ∧
    (searchPrompts catalog query tags limit).returned =
      min limit
        ((allPrompts catalog).filter
          (fun p => matchesQuery query p && matchesTags tags p)).length := by
  unfold searchSorted searchMatches
  have hperm := List.perm_insertionSort searchGE
    ((allPrompts catalog).filter (fun p => matchesQuery query p && matchesTags tags p))
  refine ⟨hperm, List.sorted_insertionSort searchGE _, ?_, ?_, rfl, hperm.length_eq, ?_⟩
  · intro c
    exact filter_insertionSort c _
  · intro p
    rw [hperm.mem_iff]
    exact List.mem_filter
  · show (List.take limit (List.insertionSort searchGE
        ((allPrompts catalog).filter
          (fun p => matchesQuery query p && matchesTags tags p)))).length = _
    rw [List.length_take, hperm.length_eq]

/-! ### Claim C8 -/

theorem char_toNat_ofNat (n : Nat) (h : n.isValidChar) : (Char.ofNat n).toNat = n := by
  unfold Char.ofNat
  rw [dif_pos h]
  rfl

theorem char_toLower_idem (c : Char) : c.toLower.toLower = c.toLower := by
  unfold Char.toLower
  by_cases h : c.toNat ≥ 65 ∧ c.toNat ≤ 90
  · simp only [if_pos h]
    have hv : (c.toNat + 32).isValidChar := Or.inl (by omega)
    have ht : (Char.ofNat (c.toNat + 32)).toNat = c.toNat + 32 := char_toNat_ofNat _ hv
    simp only [ht]
    rw [if_neg (by omega)]
  · simp only [if_neg h]

/-- Character lists fixed by lowercasing, pointwise. -/
def LowerInv (l : List Char) : Prop := ∀ c ∈ l, c.toLower = c

theorem lowerInv_lowerL (l : List Char) : LowerInv (lowerL l) := by
  intro c hc
  obtain ⟨d, _, rfl⟩ := List.mem_map.mp hc
  exact char_toLower_idem d

theorem lowerL_eq_of_inv {l : List Char} (h : LowerInv l) : lowerL l = l := by
  unfold lowerL
  rw [List.map_congr_left h]
  simp

theorem trimFront_subset {l : List Char} {x : Char} (hx : x ∈ trimFront l) : x ∈ l :=
  (List.dropWhile_sublist jsWS).subset hx

theorem trimBack_subset {l : List Char} {x : Char} (hx : x ∈ trimBack l) : x ∈ l := by
  unfold trimBack at hx
  rw [List.mem_reverse] at hx
  exact List.mem_reverse.mp ((List.dropWhile_sublist jsWS).subset hx)

theorem jsTrimL_subset {l : List Char} {x : Char} (hx : x ∈ jsTrimL l) : x ∈ l :=
  trimFront_subset (trimBack_subset hx)

theorem splitFirst_decomp :
    ∀ {l lit pre suf : List Char},
      splitFirst lit l = some (pre, suf) → l = pre ++ lit ++ suf := by
  intro l
  induction l with
  | nil =>
    intro lit pre suf h
    simp only [splitFirst] at h
    by_cases hp : lit.isPrefixOf ([] : List Char)
    · rw [if_pos hp] at h
      simp only [Option.some.injEq, Prod.mk.injEq] at h
      obtain ⟨hpre, hsuf⟩ := h
      have hlit : lit = [] := List.prefix_nil.mp (List.isPrefixOf_iff_prefix.mp hp)
      simp [← hpre, ← hsuf, hlit]
    · rw [if_neg hp] at h
      exact absurd h (by simp)
  | cons c t ih =>
    intro lit pre suf h
    simp only [splitFirst] at h
    by_cases hp : lit.isPrefixOf (c :: t)
    · rw [if_pos hp] at h
      simp only [Option.some.injEq, Prod.mk.injEq] at h
      obtain ⟨hpre, hsuf⟩ := h
      obtain ⟨u, hu⟩ := List.isPrefixOf_iff_prefix.mp hp
      rw [← hpre, ← hsuf, ← hu, List.drop_left]
      simp
    · rw [if_neg hp] at h
      cases hsf : splitFirst lit t with
      | none => rw [hsf] at h; exact absurd h (by simp)
      | some pr =>
        obtain ⟨a, b⟩ := pr
        rw [hsf] at h
        simp only [Option.some.injEq, Prod.mk.injEq] at h
        obtain ⟨hpre, hsuf⟩ := h
        rw [← hpre, ← hsuf, ih hsf]
        simp

theorem splitLast_decomp :
    ∀ {l lit pre suf : List Char},
      splitLast lit l = some (pre, suf) → l = pre ++ lit ++ suf := by
  intro l
  induction l with
  | nil =>
    intro lit pre suf h
    simp only [splitLast] at h
    by_cases hp : lit.isPrefixOf ([] : List Char)
    · rw [if_pos hp] at h
      simp only [Option.some.injEq, Prod.mk.injEq] at h
      obtain ⟨hpre, hsuf⟩ := h
      have hlit : lit = [] := List.prefix_nil.mp (List.isPrefixOf_iff_prefix.mp hp)
      simp [← hpre, ← hsuf, hlit]
    · rw [if_neg hp] at h
      exact absurd h (by simp)
  | cons c t ih =>
    intro lit pre suf h
    simp only [splitLast] at h
    cases hsl : splitLast lit t with
    | some pr =>
      obtain ⟨a, b⟩ := pr
      rw [hsl] at h
      simp only [Option.some.injEq, Prod.mk.injEq] at h
      obtain ⟨hpre, hsuf⟩ := h
      rw [← hpre, ← hsuf, ih hsl]
      simp
    | none =>
      rw [hsl] at h
      by_cases hp : lit.isPrefixOf (c :: t)
      · rw [if_pos hp] at h
        simp only [Option.some.injEq, Prod.mk.injEq] at h
        obtain ⟨hpre, hsuf⟩ := h
        obtain ⟨u, hu⟩ := List.isPrefixOf_iff_prefix.mp hp
        rw [← hpre, ← hsuf, ← hu, List.drop_left]
        simp
      · rw [if_neg hp] at h
        exact absurd h (by simp)

theorem deleteFirstL_subset {lit l : List Char} {x : Char}
    (hx : x ∈ deleteFirstL lit l) : x ∈ l := by
  unfold deleteFirstL at hx
  cases hsf : splitFirst lit l with
  | none => rw [hsf] at hx; exact hx
  | some pr =>
    obtain ⟨pre, suf⟩ := pr
    rw [hsf] at hx
    rw [splitFirst_decomp hsf]
    simp only [List.mem_append] at hx ⊢
    tauto

theorem replaceFirstL_subset {lit rep l : List Char} {x : Char}
    (hx : x ∈ replaceFirstL lit rep l) : x ∈ l ∨ x ∈ rep := by
  unfold replaceFirstL at hx
  cases hsf : splitFirst lit l with
  | none => rw [hsf] at hx; exact Or.inl hx
  | some pr =>
    obtain ⟨pre, suf⟩ := pr
    rw [hsf] at hx
    rw [splitFirst_decomp hsf]
    simp only [List.mem_append] at hx ⊢
    tauto

theorem greetConsume_subset {g l : List Char} {x : Char}
    (hx : x ∈ greetConsume g l) : x ∈ l := by
  unfold greetConsume at hx
  split at hx
  · exact List.mem_of_mem_drop
      ((List.dropWhile_sublist jsWS).subset
        (by
          rename_i heq
          rw [heq]
          exact List.mem_cons_of_mem ',' ((List.dropWhile_sublist jsWS).subset hx)))
  · exact List.mem_of_mem_drop ((List.dropWhile_sublist jsWS).subset hx)

theorem stripGreetingL_subset {l : List Char} {x : Char}
    (hx : x ∈ stripGreetingL l) : x ∈ l := by
  unfold stripGreetingL at hx
  split at hx
  · exact greetConsume_subset hx
  · split at hx
    · exact greetConsume_subset hx
    · split at hx
      · exact greetConsume_subset hx
      · exact hx

theorem hdwRest_subset {l : List Char} {x : Char} (hx : x ∈ hdwRest l) : x ∈ l :=
  List.mem_of_mem_drop hx

theorem hdwLine_subset {l : List Char} {x : Char} (hx : x ∈ hdwLine l) : x ∈ l :=
  hdwRest_subset ((List.takeWhile_sublist _).subset hx)

theorem hdwAfter_subset {l : List Char} {x : Char} (hx : x ∈ hdwAfter l) : x ∈ l :=
  hdwRest_subset (List.mem_of_mem_drop hx)

theorem hdwAt_subset {l cap suf : List Char} (h : hdwAt l = some (cap, suf)) :
    (∀ x ∈ cap, x ∈ l) ∧ (∀ x ∈ suf, x ∈ l) := by
  unfold hdwAt at h
  split at h
  · split at h
    · rename_i cap0 sufLine heq
      simp only [Option.some.injEq, Prod.mk.injEq] at h
      obtain ⟨hcap, hsuf⟩ := h
      have hline := splitLast_decomp heq
      constructor
      · intro x hx
        rw [← hcap] at hx
        have hx2 : x ∈ hdwLine l := by
          rw [hline]
          exact List.mem_append_left _ (List.mem_append_left _ hx)
        exact hdwLine_subset hx2
      · intro x hx
        rw [← hsuf] at hx
        rcases List.mem_append.mp hx with h1 | h2
        · have hx2 : x ∈ hdwLine l := by
            rw [hline]
            exact List.mem_append_right _ h1
          exact hdwLine_subset hx2
        · exact hdwAfter_subset h2
    · exact absurd h (by simp)
  · exact absurd h (by simp)

theorem hdwSearch_subset :
    ∀ {l pre cap suf : List Char},
      hdwSearch l = some (pre, cap, suf) →
      (∀ x ∈ pre, x ∈ l) ∧ (∀ x ∈ cap, x ∈ l) ∧ (∀ x ∈ suf, x ∈ l) := by
  intro l
  induction l with
  | nil =>
    intro pre cap suf h
    rw [show hdwSearch ([] : List Char) = none from rfl] at h
    exact absurd h (by simp)
  | cons c t ih =>
    intro pre cap suf h
    simp only [hdwSearch] at h
    cases hat : hdwAt (c :: t) with
    | some pr =>
      obtain ⟨cap0, suf0⟩ := pr
      rw [hat] at h
      simp only [Option.some.injEq, Prod.mk.injEq] at h
      obtain ⟨hpre, hcap, hsuf⟩ := h
      obtain ⟨hc1, hc2⟩ := hdwAt_subset hat
      refine ⟨?_, ?_, ?_⟩
      · intro x hx
        rw [← hpre] at hx
        exact absurd hx (List.not_mem_nil x)
      · intro x hx
        exact hc1 x (by rw [hcap]; exact hx)
      · intro x hx
        exact hc2 x (by rw [hsuf]; exact hx)
    | none =>
      rw [hat] at h
      cases hs : hdwSearch t with
      | none => rw [hs] at h; exact absurd h (by simp)
      | some pr =>
        obtain ⟨a, b, d⟩ := pr
        rw [hs] at h
        simp only [Option.some.injEq, Prod.mk.injEq] at h
        obtain ⟨hpre, hcap, hsuf⟩ := h
        obtain ⟨h1, h2, h3⟩ := ih hs
        refine ⟨?_, ?_, ?_⟩
        · intro x hx
          rw [← hpre] at hx
          rcases List.mem_cons.mp hx with rfl | hx2
          · exact List.mem_cons_self x t
          · exact List.mem_cons_of_mem c (h1 x hx2)
        · intro x hx
          exact List.mem_cons_of_mem c (h2 x (by rw [hcap]; exact hx))
        · intro x hx
          exact List.mem_cons_of_mem c (h3 x (by rw [hsuf]; exact hx))

theorem rewriteHDW_mem {l : List Char} {x : Char}
    (hx : x ∈ rewriteHowDoesWorkL l) : x ∈ l ∨ x ∈ "explain ".data := by
  unfold rewriteHowDoesWorkL at hx
  cases hs : hdwSearch l with
  | none => rw [hs] at hx; exact Or.inl hx
  | some pr =>
    obtain ⟨pre, cap, suf⟩ := pr
    rw [hs] at hx
    obtain ⟨h1, h2, h3⟩ := hdwSearch_subset hs
    simp only [List.mem_append] at hx
    rcases hx with ((hp | he) | hc) | hsf
    · exact Or.inl (h1 x hp)
    · exact Or.inr he
    · exact Or.inl (h2 x hc)
    · exact Or.inl (h3 x hsf)

/-- The pipeline of `normalizeIntent`, as an equation on the underlying
character list. -/
theorem normalizeIntent_data (s : String) :
    (normalizeIntent s).data =
      jsTrimL (replaceFirstL "what is ".data "define ".data
        (rewriteHowDoesWorkL (replaceFirstL "tell me ".data "explain ".data
          (deleteFirstL "please ".data (deleteFirstL "would you ".data
            (deleteFirstL "could you ".data (deleteFirstL "can you ".data
              (stripGreetingL (jsTrimL (lowerL s.data)))))))))) := rfl

theorem normalizeIntent_lowerInv (s : String) : LowerInv (normalizeIntent s).data := by
  intro x hx
  rw [normalizeIntent_data] at hx
  have h8 := jsTrimL_subset hx
  rcases replaceFirstL_subset h8 with h7 | hdef
  · rcases rewriteHDW_mem h7 with h6 | hexp
    · rcases replaceFirstL_subset h6 with h5 | hexp2
      · have h1 := stripGreetingL_subset
          (deleteFirstL_subset (deleteFirstL_subset (deleteFirstL_subset
            (deleteFirstL_subset h5))))
        have h0 := jsTrimL_subset h1
        exact lowerInv_lowerL s.data x h0
      · exact (show ∀ c ∈ "explain ".data, c.toLower = c by decide) x hexp2
    · exact (show ∀ c ∈ "explain ".data, c.toLower = c by decide) x hexp
  · exact (show ∀ c ∈ "define ".data, c.toLower = c by decide) x hdef

theorem dropWhile_dropWhile (p : Char → Bool) (l : List Char) :
    (l.dropWhile p).dropWhile p = l.dropWhile p := by
  induction l with
  | nil => rfl
  | cons c t ih =>
    by_cases h : p c
    · simp [List.dropWhile_cons, h, ih]
    · simp [List.dropWhile_cons, h]

theorem trimBack_trimBack (l : List Char) : trimBack (trimBack l) = trimBack l := by
  unfold trimBack
  rw [List.reverse_reverse, dropWhile_dropWhile]

theorem trimBack_isPrefix (l : List Char) : trimBack l <+: l := by
  obtain ⟨u, hu⟩ := List.dropWhile_suffix (l := l.reverse) jsWS
  refine ⟨u.reverse, ?_⟩
  unfold trimBack
  rw [← List.reverse_append, hu, List.reverse_reverse]

theorem head_dropWhile_false {p : Char → Bool} :
    ∀ {l : List Char} {c : Char} {t : List Char},
      l.dropWhile p = c :: t → p c = false := by
  intro l
  induction l with
  | nil =>
    intro c t h
    exact absurd h (by simp)
  | cons a s ih =>
    intro c t h
    by_cases ha : p a
    · rw [List.dropWhile_cons, if_pos ha] at h
      exact ih h
    · rw [List.dropWhile_cons, if_neg ha] at h
      obtain ⟨rfl, -⟩ : a = c ∧ s = t := by
        simpa using h
      exact Bool.not_eq_true _ |>.mp ha

theorem jsTrimL_idem (l : List Char) : jsTrimL (jsTrimL l) = jsTrimL l := by
  unfold jsTrimL
  have hA : trimFront (trimBack (trimFront l)) = trimBack (trimFront l) := by
    cases hm : trimBack (trimFront l) with
    | nil => rfl
    | cons c m =>
      have hpre := trimBack_isPrefix (trimFront l)
      rw [hm] at hpre
      obtain ⟨u, hu⟩ := hpre
      have hfront : l.dropWhile jsWS = c :: (m ++ u) := by
        rw [show trimFront l = l.dropWhile jsWS from rfl] at hu
        rw [← hu]
        rfl
      have hc : jsWS c = false := head_dropWhile_false hfront
      unfold trimFront
      rw [List.dropWhile_cons, hc]
      simp
  rw [hA, trimBack_trimBack]

theorem occursL_false_none {lit l : List Char} (h : occursL lit l = false) :
    splitFirst lit l = none := by
  unfold occursL at h
  cases hsf : splitFirst lit l with
  | none => rfl
  | some pr =>
    rw [hsf] at h
    exact absurd h (by simp)

theorem deleteFirstL_id {lit l : List Char} (h : splitFirst lit l = none) :
    deleteFirstL lit l = l := by
  unfold deleteFirstL
  rw [h]

theorem replaceFirstL_id {lit rep l : List Char} (h : splitFirst lit l = none) :
    replaceFirstL lit rep l = l := by
  unfold replaceFirstL
  rw [h]

theorem rewriteHDW_id {l : List Char} (h : hdwSearch l = none) :
    rewriteHowDoesWorkL l = l := by
  unfold rewriteHowDoesWorkL
  rw [h]

theorem stripGreetingL_id {l : List Char}
    (h1 : ("hi".data).isPrefixOf l = false)
    (h2 : ("hello".data).isPrefixOf l = false)
    (h3 : ("hey".data).isPrefixOf l = false) : stripGreetingL l = l := by
  unfold stripGreetingL
  rw [if_neg (by simp [h1]), if_neg (by simp [h2]), if_neg (by simp [h3])]

/-- Text containing none of the triggers of `normalizeIntent`: no greeting
prefix and no occurrence of a softening/rewrite pattern. -/
def patternFree (t : String) : Prop :=
  ("hi".data).isPrefixOf t.data = false ∧
  ("hello".data).isPrefixOf t.data = false ∧
  ("hey".data).isPrefixOf t.data = false ∧
  occursL "can you ".data t.data = false ∧
  occursL "could you ".data t.data = false ∧
  occursL "would you ".data t.data = false ∧
  occursL "please ".data t.data = false ∧
  occursL "tell me ".data t.data = false ∧
  hdwSearch t.data = none ∧
  occursL "what is ".data t.data = false

/-- C8: `normalizeIntent` is idempotent on outputs free of its patterns —
when `normalizeIntent s` contains no greeting prefix and no
softening/rewrite pattern, applying the function again changes nothing; in
particular `"Can you explain recursion"` normalizes to
`"explain recursion"`, which is a fixed point. -/
theorem string_eq_of_data {a b : String} (h : a.data = b.data) : a = b := by
  cases a
  cases b
  exact congrArg String.mk h

theorem normalizeIntent_idempotent_on_free (s : String)
    (h : patternFree (normalizeIntent s)) :
    normalizeIntent (normalizeIntent s) = normalizeIntent s ∧
    normalizeIntent "Can you explain recursion" = "explain recursion" ∧
    normalizeIntent "explain recursion" = "explain recursion" := by
  refine ⟨?_, by decide, by decide⟩
  obtain ⟨hg1, hg2, hg3, hcan, hcould, hwould, hplease, htell, hhdw, hwhat⟩ := h
  have hlow : lowerL (normalizeIntent s).data = (normalizeIntent s).data :=
    lowerL_eq_of_inv (normalizeIntent_lowerInv s)
  have htrim : jsTrimL (normalizeIntent s).data = (normalizeIntent s).data := by
    rw [normalizeIntent_data s]
    exact jsTrimL_idem _
  have hd : (normalizeIntent (normalizeIntent s)).data = (normalizeIntent s).data := by
    rw [normalizeIntent_data (normalizeIntent s), hlow, htrim,
      stripGreetingL_id hg1 hg2 hg3,
      deleteFirstL_id (occursL_false_none hcan),
      deleteFirstL_id (occursL_false_none hcould),
      deleteFirstL_id (occursL_false_none hwould),
      deleteFirstL_id (occursL_false_none hplease),
      replaceFirstL_id (occursL_false_none htell),
      rewriteHDW_id hhdw,
      replaceFirstL_id (occursL_false_none hwhat),
      htrim]
  exact string_eq_of_data hd

/-- C8 witness: the theorem applied at `"Can you explain recursion"`, whose
normalization `"explain recursion"` is pattern-free. -/
theorem normalizeIntent_idempotent_on_free_witness :
    normalizeIntent (normalizeIntent "Can you explain recursion") =
      normalizeIntent "Can you explain recursion" ∧
    normalizeIntent "Can you explain recursion" = "explain recursion" ∧
    normalizeIntent "explain recursion" = "explain recursion" :=
  normalizeIntent_idempotent_on_free "Can you explain recursion"
    ⟨by decide, by decide, by decide, by decide, by decide, by decide, by decide,
      by decide, by decide, by decide⟩
